import Mathlib

/-!
Shallow embedding of the thread/message persistence, conversation-assembly and
turn-orchestration layer of the NT-AI chat application.

Source files embedded:
* `src/server.ts` — the Express + better-sqlite3 store: the `threads` and
  `messages` tables and the six API routes operating on them.  better-sqlite3
  enables SQLite foreign-key enforcement by default, so the
  `FOREIGN KEY(thread_id) REFERENCES threads(id) ON DELETE CASCADE` clause of
  the `messages` table is active: inserting a message whose `thread_id`
  references no thread raises a constraint error, and deleting a thread
  cascades to its messages.
* `src/unnamed/part_001` — the React client; in particular `handleSendMessage`
  (the turn orchestrator) and the context-assembly expression
  `[...messages, userMessage].map(m => ({role: m.role, parts: [{text: m.content}]}))`.

Timestamps (`CURRENT_TIMESTAMP`) are modelled as natural numbers; each SQL
statement receives the clock value at which it runs, and traces carry the
hypothesis that these clock values are non-decreasing in execution order
(wall-clock time does not go backwards).  `AUTOINCREMENT` is modelled by the
`nextId` counter, which never decreases and is never reused after a delete.
-/

namespace NTAI

/-- A row of the `messages` table of `src/server.ts`:
`id INTEGER PRIMARY KEY AUTOINCREMENT, thread_id TEXT, role TEXT, content TEXT,
created_at DATETIME DEFAULT CURRENT_TIMESTAMP`.  `role` is an unconstrained
`TEXT` column, hence a `String` here. -/
structure MessageRow where
  id : Nat
  thread_id : String
  role : String
  content : String
  created_at : Nat
deriving Repr, DecidableEq

/-- A row of the `threads` table of `src/server.ts`:
`id TEXT PRIMARY KEY, title TEXT, created_at DATETIME DEFAULT CURRENT_TIMESTAMP,
updated_at DATETIME DEFAULT CURRENT_TIMESTAMP`. -/
structure ThreadRow where
  id : String
  title : String
  created_at : Nat
  updated_at : Nat
deriving Repr, DecidableEq

/-- The database state: the two tables, with `messages` kept in rowid
(insertion) order, plus the `AUTOINCREMENT` counter for `messages.id`. -/
structure Store where
  threads : List ThreadRow
  messages : List MessageRow
  nextId : Nat
deriving Repr, DecidableEq

/-- The empty database produced by the `CREATE TABLE` statements;
`AUTOINCREMENT` assigns ids starting from 1. -/
def emptyStore : Store := ⟨[], [], 1⟩

/-- Errors raised by better-sqlite3 `.run()` on the statements of
`src/server.ts`.  `primaryKeyViolation` is raised by
`INSERT INTO threads (id, title) VALUES (?, ?)` when the id already exists;
`foreignKeyViolation` (SQLITE_CONSTRAINT_FOREIGNKEY) is raised by
`INSERT INTO messages (thread_id, ...) VALUES (?, ...)` when the given
`thread_id` references no row of `threads` — i.e. exactly when the referenced
thread is absent.  An uncaught error makes the Express handler respond with an
HTTP 500 and leaves the database unchanged. -/
inductive SqlError where
  | primaryKeyViolation
  | foreignKeyViolation
deriving Repr, DecidableEq

/-- Whether a row with the given id exists in `threads`. -/
def threadExists (s : Store) (id : String) : Bool :=
  s.threads.any (fun t => t.id == id)

/-- `app.post("/api/threads")` of `src/server.ts`:
`INSERT INTO threads (id, title) VALUES (?, ?)`, with `created_at` and
`updated_at` defaulting to `CURRENT_TIMESTAMP` (the parameter `now`).
Fails on a duplicate primary key. -/
def createThread (s : Store) (now : Nat) (id title : String) :
    Except SqlError Store :=
  if threadExists s id then .error .primaryKeyViolation
  else .ok { s with threads := s.threads ++ [⟨id, title, now, now⟩] }

/-- `app.post("/api/threads/:id/messages")` of `src/server.ts`: first
`INSERT INTO messages (thread_id, role, content) VALUES (?, ?, ?)` (with
`created_at` defaulting to `CURRENT_TIMESTAMP`, the parameter `tIns`), then
`UPDATE threads SET updated_at = CURRENT_TIMESTAMP WHERE id = ?` (the
parameter `tUpd`; the two statements run one after the other, so
`tIns ≤ tUpd`).  The insert raises a foreign-key violation when the thread is
absent, in which case the handler aborts and the update never runs.  No
validation whatsoever is applied to `role` or `content`. -/
def appendMessage (s : Store) (tIns tUpd : Nat) (threadId role content : String) :
    Except SqlError Store :=
  if threadExists s threadId then
    .ok { threads := s.threads.map (fun t =>
            if t.id == threadId then { t with updated_at := tUpd } else t),
          messages := s.messages ++ [⟨s.nextId, threadId, role, content, tIns⟩],
          nextId := s.nextId + 1 }
  else .error .foreignKeyViolation

/-- `app.delete("/api/threads/:id")` of `src/server.ts`:
`DELETE FROM threads WHERE id = ?`, which by `ON DELETE CASCADE` also deletes
every message whose `thread_id` is that id.  The statement matches zero rows
when the thread is absent; the handler responds `{ success: true }`
unconditionally, so the operation is total. -/
def deleteThread (s : Store) (id : String) : Store :=
  { s with threads := s.threads.filter (fun t => !(t.id == id)),
           messages := s.messages.filter (fun m => !(m.thread_id == id)) }

/-- `app.patch("/api/threads/:id")` of `src/server.ts`:
`UPDATE threads SET title = ? WHERE id = ?`.  No validation of `title`, no
existence check (the statement matches zero rows when the thread is absent),
no change to `updated_at`; the handler responds `{ success: true }`
unconditionally, so the operation is total. -/
def renameThread (s : Store) (id title : String) : Store :=
  { s with threads := s.threads.map (fun t =>
      if t.id == id then { t with title := title } else t) }

/-- Stable insertion of a message into a list ordered by `created_at`
ascending: a message moves before another only when its key is strictly
smaller, so rows with equal `created_at` keep their relative (rowid) order. -/
def insertByCreated (m : MessageRow) : List MessageRow → List MessageRow
  | [] => [m]
  | x :: xs =>
    if m.created_at ≤ x.created_at then m :: x :: xs
    else x :: insertByCreated m xs

/-- Sort by `created_at` ascending, fixing ONE admissible linearization of
`ORDER BY created_at ASC` (equal keys in rowid order).  SQLite itself leaves
the relative order of rows whose ORDER BY keys compare equal unspecified, so
this function is used only where the tie order is immaterial (e.g. empty
results); properties sensitive to the order of equal-`created_at` rows are
stated against `IsListMessagesResult` below, the contract SQLite actually
gives. -/
def sortByCreated : List MessageRow → List MessageRow
  | [] => []
  | x :: xs => insertByCreated x (sortByCreated xs)

/-- `app.get("/api/threads/:id/messages")` of `src/server.ts`:
`SELECT * FROM messages WHERE thread_id = ? ORDER BY created_at ASC`, as one
admissible execution (see `sortByCreated` for the tie caveat).
Note there is no existence check on the thread: for an absent thread id the
query simply matches zero rows and the handler responds with `[]`. -/
def listMessages (s : Store) (threadId : String) : List MessageRow :=
  sortByCreated (s.messages.filter (fun m => m.thread_id == threadId))

/-- The guarantee `SELECT * FROM messages WHERE thread_id = ? ORDER BY
created_at ASC` actually gives: the result is SOME permutation of the
matching rows that is non-decreasing in `created_at`.  SQLite does not
specify which order rows with equal `created_at` come back in, and the
schema has no secondary sort key. -/
def IsListMessagesResult (s : Store) (threadId : String) (l : List MessageRow) : Prop :=
  l.Perm (s.messages.filter (fun m => m.thread_id == threadId)) ∧
  l.Pairwise (fun a b => a.created_at ≤ b.created_at)

/-- One API call against the store, tagged with the `CURRENT_TIMESTAMP`
value(s) of its SQL statement(s). -/
inductive Op where
  | create (now : Nat) (id title : String)
  | append (tIns tUpd : Nat) (threadId role content : String)
  | delete (id : String)
  | rename (id title : String)
deriving Repr, DecidableEq

/-- The clock values at which the SQL statements of an operation run, in
execution order. -/
def opTimes : Op → List Nat
  | .create now _ _ => [now]
  | .append tIns tUpd _ _ _ => [tIns, tUpd]
  | .delete _ => []
  | .rename _ _ => []

/-- Apply one operation to the store.  A failing statement (`Except.error`)
leaves the database unchanged: the Express handler re-raises and nothing was
written. -/
def applyOp (s : Store) : Op → Store
  | .create now id title => (createThread s now id title).toOption.getD s
  | .append tIns tUpd th r c => (appendMessage s tIns tUpd th r c).toOption.getD s
  | .delete id => deleteThread s id
  | .rename id title => renameThread s id title

/-- Run a sequence of API calls from a given store state. -/
def run (s : Store) (ops : List Op) : Store :=
  ops.foldl applyOp s

/-- The clock values of a trace, in execution order. -/
def traceTimes (ops : List Op) : List Nat :=
  (ops.map opTimes).flatten

/-- Whether a list of clock values is non-decreasing starting no earlier
than `c`. -/
def timesOk : Nat → List Nat → Bool
  | _, [] => true
  | c, t :: ts => decide (c ≤ t) && timesOk t ts

/-- The trace is executed with a non-decreasing wall clock starting no earlier
than `c`. -/
def TimeOrdered (c : Nat) (ops : List Op) : Prop :=
  timesOk c (traceTimes ops) = true

/-- The clock value after the last statement of the trace (or `c` when no
statement carries a timestamp). -/
def opEnd (c : Nat) : Op → Nat
  | .create now _ _ => now
  | .append _ tUpd _ _ _ => tUpd
  | .delete _ => c
  | .rename _ _ => c

/-- The clock value after running the whole trace. -/
def endTime : Nat → List Op → Nat
  | c, [] => c
  | c, op :: ops => endTime (opEnd c op) ops

/-! ## Client side (`src/unnamed/part_001`) -/

/-- The `Message` interface of `src/unnamed/part_001` as it crosses the wire
(`JSON.stringify({ role, content })`): the optional `id` is absent on
freshly-built messages and the `"user" | "model"` union type serialises to a
string. -/
structure UiMessage where
  role : String
  content : String
deriving Repr, DecidableEq

/-- One element of the `parts` array sent to the model API. -/
structure GeminiPart where
  text : String
deriving Repr, DecidableEq

/-- One element of the `contents` array sent to the model API. -/
structure GeminiContent where
  role : String
  parts : List GeminiPart
deriving Repr, DecidableEq

/-- The conversation assembler of `handleSendMessage`
(`src/unnamed/part_001`): the `contents` argument of the model call is
`[...messages, userMessage].map(m => ({ role: m.role, parts: [{ text: m.content }] }))`.
The spread builds a fresh array, so the input history is not mutated. -/
def assembleContents (messages : List UiMessage) (userMessage : UiMessage) :
    List GeminiContent :=
  (messages ++ [userMessage]).map (fun m => ⟨m.role, [⟨m.content⟩]⟩)

/-- The synthetic reply shown by `handleSendMessage` when the model call
throws. -/
def errorReply : String := "Error: Failed to connect to AI service."

/-- The fallback reply used when the model responds with no text
(`response.text || "..."`). -/
def fallbackReply : String := "I\x27m sorry, I couldn\x27t generate a response."

/-- Outcome of the `ai.models.generateContent` call: a response whose `text`
field may be absent, or a thrown error (network failure, remote error). -/
inductive ModelOutcome where
  | success (text : Option String)
  | failure
deriving Repr, DecidableEq

/-- The turn orchestrator `handleSendMessage` of `src/unnamed/part_001`, on
the path where a chat `chatId` is already selected and `input` is non-empty.
Statefully it: appends the user message to the React `messages` state, POSTs
it to the store (the response is not inspected, so a server-side failure
leaves the client proceeding with the store unchanged), invokes the model,
and on success appends the model reply to the React state and POSTs it to the
store; on a thrown model call it appends the synthetic `errorReply` to the
React state only — the catch block performs no store write.  `t1, t2` are the
clock values of the user-message insert/update statements and `t3, t4` those
of the model-message statements.  Returns the store and React `messages`
state after the turn. -/
def handleSendMessage (s : Store) (ui : List UiMessage) (chatId input : String)
    (t1 t2 t3 t4 : Nat) (outcome : ModelOutcome) : Store × List UiMessage :=
  let userMessage : UiMessage := ⟨"user", input⟩
  let ui1 := ui ++ [userMessage]
  let s1 := (appendMessage s t1 t2 chatId "user" input).toOption.getD s
  match outcome with
  | .failure => (s1, ui1 ++ [⟨"model", errorReply⟩])
  | .success txt =>
    let aiContent := txt.getD fallbackReply
    let ui2 := ui1 ++ [⟨"model", aiContent⟩]
    match appendMessage s1 t3 t4 chatId "model" aiContent with
    | .ok s2 => (s2, ui2)
    | .error _ => (s1, ui2)

/-! ## Invariants -/

/-- Referential integrity: every message references an existing thread.  This
is the property the active `FOREIGN KEY` constraint maintains. -/
def NoOrphans (s : Store) : Prop :=
  ∀ m ∈ s.messages, threadExists s m.thread_id = true

/-- Clock-aware well-formedness of a store reached by a trace whose statements
all ran at clock values `≤ c`: message ids are below the `AUTOINCREMENT`
counter and strictly increasing in rowid order, `created_at` is non-decreasing
in rowid order, all stored timestamps are `≤ c`, every thread's `updated_at`
dominates the `created_at` of each of its messages, and thread ids are
pairwise distinct (the `TEXT PRIMARY KEY`). -/
structure Inv (s : Store) (c : Nat) : Prop where
  ids_lt : ∀ m ∈ s.messages, m.id < s.nextId
  ids_sorted : s.messages.Pairwise (fun a b => a.id < b.id)
  created_sorted : s.messages.Pairwise (fun a b => a.created_at ≤ b.created_at)
  msg_le : ∀ m ∈ s.messages, m.created_at ≤ c
  thr_le : ∀ t ∈ s.threads, t.updated_at ≤ c
  upd_ge : ∀ t ∈ s.threads, ∀ m ∈ s.messages, m.thread_id = t.id →
    m.created_at ≤ t.updated_at
  ids_nodup : s.threads.Pairwise (fun a b => a.id ≠ b.id)

/-- Example traces used to instantiate hypothesised theorems at concrete
inputs. -/
def wOps : List Op := [.create 0 "T1" "A", .append 1 1 "T1" "user" "hi"]

/-- A trace whose two appends land in the same second (equal `created_at`),
the routine case under the schema's second-resolution `DATETIME`. -/
def cexOps4 : List Op :=
  [.create 0 "T" "c", .append 1 1 "T" "user" "a", .append 1 1 "T" "model" "b"]

/-- A trace whose appends carry strictly increasing timestamps. -/
def w4Ops : List Op :=
  [.create 0 "T1" "A", .append 1 1 "T1" "user" "hi", .append 2 2 "T1" "model" "yo"]

/-- The delete scenario of the specification: thread `T3` with five messages,
then deleted. -/
def cexOps9 : List Op :=
  [.create 0 "T3" "t", .append 1 1 "T3" "user" "a", .append 1 1 "T3" "model" "b",
   .append 2 2 "T3" "user" "c", .append 2 2 "T3" "model" "d",
   .append 3 3 "T3" "user" "e", .delete "T3"]

instance (c : Nat) (ops : List Op) : Decidable (TimeOrdered c ops) :=
  inferInstanceAs (Decidable (timesOk c (traceTimes ops) = true))

/-! ## Helper lemmas -/

theorem threadExists_iff {s : Store} {x : String} :
    threadExists s x = true ↔ ∃ t ∈ s.threads, t.id = x := by
  simp [threadExists]

theorem threadExists_map {l : List ThreadRow} {f : ThreadRow → ThreadRow}
    (hf : ∀ t, (f t).id = t.id) (ms : List MessageRow) (n : Nat) (x : String) :
    threadExists ⟨l.map f, ms, n⟩ x = threadExists ⟨l, ms, n⟩ x := by
  simp only [threadExists, List.any_map, Function.comp_def, hf]

theorem Inv.mono {s : Store} {c cBig : Nat} (h : Inv s c) (hc : c ≤ cBig) :
    Inv s cBig where
  ids_lt := h.ids_lt
  ids_sorted := h.ids_sorted
  created_sorted := h.created_sorted
  msg_le := fun m hm => le_trans (h.msg_le m hm) hc
  thr_le := fun t ht => le_trans (h.thr_le t ht) hc
  upd_ge := h.upd_ge
  ids_nodup := h.ids_nodup

theorem eq_of_mem_pairwise_ne {l : List ThreadRow}
    (hp : l.Pairwise (fun a b => a.id ≠ b.id))
    {t u : ThreadRow} (ht : t ∈ l) (hu : u ∈ l) (h : t.id = u.id) : t = u := by
  induction l with
  | nil => cases ht
  | cons x xs ih =>
    rcases List.pairwise_cons.1 hp with ⟨hx, hxs⟩
    rcases List.mem_cons.1 ht with rfl | hmt
    · rcases List.mem_cons.1 hu with rfl | hmu
      · rfl
      · exact absurd h (hx u hmu)
    · rcases List.mem_cons.1 hu with rfl | hmu
      · exact absurd h.symm (hx t hmt)
      · exact ih hxs hmt hmu

theorem eq_of_perm_of_sorted_strict : ∀ {l f : List MessageRow},
    l.Perm f → l.Pairwise (fun a b => a.created_at ≤ b.created_at) →
    f.Pairwise (fun a b => a.created_at < b.created_at) → l = f := by
  intro l f hp hl hf
  induction f generalizing l with
  | nil => exact hp.eq_nil
  | cons y f ih =>
    cases l with
    | nil =>
      have := hp.length_eq
      simp at this
    | cons x l =>
      have hxmem : x ∈ y :: f := hp.subset (List.mem_cons_self x l)
      rcases List.mem_cons.1 hxmem with rfl | hxf
      · rw [ih (hp.cons_inv) hl.of_cons hf.of_cons]
      · have hyx : y.created_at < x.created_at := List.rel_of_pairwise_cons hf hxf
        have hymem : y ∈ x :: l := hp.symm.subset (List.mem_cons_self y f)
        rcases List.mem_cons.1 hymem with heq | hyl
        · rw [heq] at hyx
          exact absurd hyx (lt_irrefl _)
        · have hxy : x.created_at ≤ y.created_at := List.rel_of_pairwise_cons hl hyl
          exact absurd (lt_of_lt_of_le hyx hxy) (lt_irrefl _)

theorem insertByCreated_eq_cons (m : MessageRow) (l : List MessageRow)
    (h : ∀ x ∈ l, m.created_at ≤ x.created_at) : insertByCreated m l = m :: l := by
  cases l with
  | nil => rfl
  | cons x xs => simp [insertByCreated, h x (List.mem_cons_self x xs)]

theorem sortByCreated_eq_self (l : List MessageRow)
    (h : l.Pairwise (fun a b => a.created_at ≤ b.created_at)) :
    sortByCreated l = l := by
  induction l with
  | nil => rfl
  | cons x xs ih =>
    rw [sortByCreated, ih h.of_cons]
    exact insertByCreated_eq_cons x xs fun b hb => List.rel_of_pairwise_cons h hb

theorem listMessages_eq_filter {s : Store} {c : Nat} (h : Inv s c) (t : String) :
    listMessages s t = s.messages.filter (fun m => m.thread_id == t) := by
  exact sortByCreated_eq_self _ (h.created_sorted.filter _)

theorem inv_empty (c : Nat) : Inv emptyStore c := by
  constructor <;> simp [emptyStore]

theorem inv_create {s : Store} {c : Nat} (h : Inv s c) (now : Nat) (id title : String)
    (hc : c ≤ now) : Inv (applyOp s (.create now id title)) now := by
  by_cases hex : threadExists s id = true
  · simpa [applyOp, createThread, hex] using h.mono hc
  · simp only [applyOp, createThread, hex, if_neg, Bool.false_eq_true,
      not_false_eq_true, ite_false, Except.toOption, Option.getD]
    rw [threadExists_iff.not] at hex
    push_neg at hex
    refine ⟨h.ids_lt, h.ids_sorted, h.created_sorted,
      fun m hm => (h.msg_le m hm).trans hc, ?_, ?_, ?_⟩
    · intro t ht
      rcases List.mem_append.1 ht with hold | hnew
      · exact (h.thr_le t hold).trans hc
      · simp only [List.mem_singleton] at hnew
        subst hnew; exact le_refl now
    · intro t ht m hm hid
      rcases List.mem_append.1 ht with hold | hnew
      · exact h.upd_ge t hold m hm hid
      · simp only [List.mem_singleton] at hnew
        subst hnew; exact (h.msg_le m hm).trans hc
    · refine List.pairwise_append.2 ⟨h.ids_nodup, List.pairwise_singleton _ _, ?_⟩
      intro a ha b hb
      simp only [List.mem_singleton] at hb
      subst hb
      exact hex a ha

theorem inv_append_ok {s : Store} {c : Nat} (h : Inv s c) {tIns tUpd : Nat}
    (hc : c ≤ tIns) (hi : tIns ≤ tUpd) (th r co : String) :
    Inv ⟨s.threads.map (fun t => if t.id == th then { t with updated_at := tUpd } else t),
         s.messages ++ [⟨s.nextId, th, r, co, tIns⟩], s.nextId + 1⟩ tUpd := by
  refine ⟨?_, ?_, ?_, ?_, ?_, ?_, ?_⟩
  · intro m hm
    rcases List.mem_append.1 hm with hold | hnew
    · exact Nat.lt_succ_of_lt (h.ids_lt m hold)
    · simp only [List.mem_singleton] at hnew
      subst hnew; exact Nat.lt_succ_self _
  · refine List.pairwise_append.2 ⟨h.ids_sorted, List.pairwise_singleton _ _, ?_⟩
    intro a ha b hb
    simp only [List.mem_singleton] at hb
    subst hb; exact h.ids_lt a ha
  · refine List.pairwise_append.2 ⟨h.created_sorted, List.pairwise_singleton _ _, ?_⟩
    intro a ha b hb
    simp only [List.mem_singleton] at hb
    subst hb; exact (h.msg_le a ha).trans hc
  · intro m hm
    rcases List.mem_append.1 hm with hold | hnew
    · exact ((h.msg_le m hold).trans hc).trans hi
    · simp only [List.mem_singleton] at hnew
      subst hnew; exact hi
  · intro t ht
    rcases List.mem_map.1 ht with ⟨t0, ht0, rfl⟩
    by_cases hth : (t0.id == th) = true
    · simp only [hth, if_true]; exact le_refl tUpd
    · simp only [hth, if_neg, Bool.false_eq_true, not_false_eq_true, ite_false]
      exact ((h.thr_le t0 ht0).trans hc).trans hi
  · intro t ht m hm hid
    rcases List.mem_map.1 ht with ⟨t0, ht0, rfl⟩
    by_cases hth : (t0.id == th) = true
    · simp only [hth, if_true] at hid ⊢
      rcases List.mem_append.1 hm with hold | hnew
      · exact ((h.msg_le m hold).trans hc).trans hi
      · simp only [List.mem_singleton] at hnew
        subst hnew; exact hi
    · simp only [hth, if_neg, Bool.false_eq_true, not_false_eq_true, ite_false] at hid ⊢
      rcases List.mem_append.1 hm with hold | hnew
      · exact h.upd_ge t0 ht0 m hold hid
      · simp only [List.mem_singleton] at hnew
        subst hnew
        simp only [beq_iff_eq] at hth
        exact absurd hid.symm hth
  · rw [List.pairwise_map]
    have hfid : ∀ t : ThreadRow,
        (if t.id == th then { t with updated_at := tUpd } else t).id = t.id := by
      intro t; split <;> rfl
    simpa only [hfid] using h.ids_nodup

theorem inv_delete {s : Store} {c : Nat} (h : Inv s c) (id : String) :
    Inv (deleteThread s id) c := by
  refine ⟨?_, h.ids_sorted.filter _, h.created_sorted.filter _, ?_, ?_, ?_,
    h.ids_nodup.filter _⟩
  · exact fun m hm => h.ids_lt m (List.mem_of_mem_filter hm)
  · exact fun m hm => h.msg_le m (List.mem_of_mem_filter hm)
  · exact fun t ht => h.thr_le t (List.mem_of_mem_filter ht)
  · exact fun t ht m hm hid =>
      h.upd_ge t (List.mem_of_mem_filter ht) m (List.mem_of_mem_filter hm) hid

theorem inv_rename {s : Store} {c : Nat} (h : Inv s c) (id title : String) :
    Inv (renameThread s id title) c := by
  have hgid : ∀ t : ThreadRow,
      (if t.id == id then { t with title := title } else t).id = t.id := by
    intro t; split <;> rfl
  have hgupd : ∀ t : ThreadRow,
      (if t.id == id then { t with title := title } else t).updated_at = t.updated_at := by
    intro t; split <;> rfl
  refine ⟨h.ids_lt, h.ids_sorted, h.created_sorted, h.msg_le, ?_, ?_, ?_⟩
  · intro t ht
    rcases List.mem_map.1 ht with ⟨t0, ht0, rfl⟩
    rw [hgupd]; exact h.thr_le t0 ht0
  · intro t ht m hm hid
    rcases List.mem_map.1 ht with ⟨t0, ht0, rfl⟩
    rw [hgupd]
    rw [hgid] at hid
    exact h.upd_ge t0 ht0 m hm hid
  · simp only [renameThread, List.pairwise_map]
    simpa only [hgid] using h.ids_nodup

theorem inv_applyOp {s : Store} {c : Nat} (h : Inv s c) (op : Op)
    (ht : timesOk c (opTimes op) = true) : Inv (applyOp s op) (opEnd c op) := by
  cases op with
  | create now id title =>
    simp only [opTimes, timesOk, Bool.and_eq_true, decide_eq_true_eq, and_true] at ht
    exact inv_create h now id title ht
  | append tIns tUpd th r co =>
    simp only [opTimes, timesOk, Bool.and_eq_true, decide_eq_true_eq, and_true] at ht
    obtain ⟨ht1, ht2⟩ := ht
    by_cases hex : threadExists s th = true
    · simp only [applyOp, appendMessage, hex, if_true, Except.toOption, Option.getD]
      exact inv_append_ok h ht1 ht2 th r co
    · simpa [applyOp, appendMessage, hex] using h.mono (ht1.trans ht2)
  | delete id => exact inv_delete h id
  | rename id title => exact inv_rename h id title

theorem inv_run {c : Nat} (ops : List Op) {s : Store} (h : Inv s c)
    (ht : TimeOrdered c ops) : Inv (run s ops) (endTime c ops) := by
  induction ops generalizing s c with
  | nil => exact h
  | cons op ops ih =>
    have hsplit : timesOk c (opTimes op) = true ∧
        timesOk (opEnd c op) (traceTimes ops) = true := by
      cases op <;>
        simp_all [TimeOrdered, traceTimes, opTimes, opEnd, timesOk,
          Bool.and_eq_true, decide_eq_true_eq]
    exact ih (inv_applyOp h op hsplit.1) hsplit.2

theorem noOrphans_empty : NoOrphans emptyStore := by
  intro m hm; cases hm

theorem noOrphans_applyOp {s : Store} (h : NoOrphans s) (op : Op) :
    NoOrphans (applyOp s op) := by
  cases op with
  | create now id title =>
    by_cases hex : threadExists s id = true
    · simpa [applyOp, createThread, hex] using h
    · simp only [applyOp, createThread, hex, Bool.false_eq_true, not_false_eq_true,
        ite_false, Except.toOption, Option.getD]
      intro m hm
      have := h m hm
      simp only [threadExists, List.any_append, Bool.or_eq_true] at this ⊢
      exact Or.inl this
  | append tIns tUpd th r co =>
    by_cases hex : threadExists s th = true
    · simp only [applyOp, appendMessage, hex, if_true, Except.toOption, Option.getD]
      intro m hm
      have hfid : ∀ t : ThreadRow,
          (if t.id == th then { t with updated_at := tUpd } else t).id = t.id := by
        intro t; split <;> rfl
      rw [threadExists_map hfid]
      rcases List.mem_append.1 hm with hold | hnew
      · exact h m hold
      · simp only [List.mem_singleton] at hnew
        subst hnew; exact hex
    · simpa [applyOp, appendMessage, hex] using h
  | delete id =>
    intro m hm
    rcases List.mem_filter.1 hm with ⟨hmem, hne⟩
    rcases threadExists_iff.1 (h m hmem) with ⟨t, htm, hid⟩
    refine threadExists_iff.2 ⟨t, List.mem_filter.2 ⟨htm, ?_⟩, hid⟩
    simp only [bne_iff_ne, ne_eq, Bool.not_eq_true', beq_eq_false_iff_ne] at hne ⊢
    rw [hid]; exact hne
  | rename id title =>
    intro m hm
    have hgid : ∀ t : ThreadRow,
        (if t.id == id then { t with title := title } else t).id = t.id := by
      intro t; split <;> rfl
    have heq : threadExists (applyOp s (.rename id title)) m.thread_id
        = threadExists s m.thread_id :=
      threadExists_map hgid s.messages s.nextId m.thread_id
    rw [heq]
    exact h m hm

theorem noOrphans_run (ops : List Op) {s : Store} (h : NoOrphans s) :
    NoOrphans (run s ops) := by
  induction ops generalizing s with
  | nil => exact h
  | cons op ops ih => exact ih (noOrphans_applyOp h op)

theorem appendMessage_ok {s : Store} {th : String} (hex : threadExists s th = true)
    (tIns tUpd : Nat) (r co : String) :
    appendMessage s tIns tUpd th r co =
      .ok ⟨s.threads.map (fun t => if t.id == th then { t with updated_at := tUpd } else t),
           s.messages ++ [⟨s.nextId, th, r, co, tIns⟩], s.nextId + 1⟩ := by
  simp [appendMessage, hex]

theorem map_noop {α : Type} {f : α → α} : ∀ {l : List α},
    (∀ a ∈ l, f a = a) → l.map f = l := by
  intro l h
  induction l with
  | nil => rfl
  | cons x xs ih =>
    simp only [List.map_cons, h x (List.mem_cons_self x xs)]
    rw [ih fun a ha => h a (List.mem_cons_of_mem x ha)]

/-! ## Claims -/

/-- C1: deleting a thread removes every message row whose `thread_id` is that
thread's id (the `ON DELETE CASCADE` clause), and in every store reachable
from the empty database by the API operations no orphan message exists —
every stored message's `thread_id` references an existing thread. -/
theorem deleteThread_cascades_and_no_orphans (s : Store) (id : String)
    (ops : List Op) :
    (∀ m ∈ (deleteThread s id).messages, m.thread_id ≠ id) ∧
    (∀ m ∈ (run emptyStore ops).messages,
        threadExists (run emptyStore ops) m.thread_id = true) := by
  constructor
  · intro m hm
    have := (List.mem_filter.1 hm).2
    simpa using this
  · exact noOrphans_run ops noOrphans_empty

/-- C1 witness: on the concrete two-operation trace, the surviving message
still references an existing thread and never references the deleted id. -/
theorem deleteThread_cascades_and_no_orphans_witness :
    ((⟨1, "T1", "user", "hi", 1⟩ : MessageRow).thread_id ≠ "gone") ∧
    threadExists (run emptyStore wOps)
      (⟨1, "T1", "user", "hi", 1⟩ : MessageRow).thread_id = true :=
  ⟨(deleteThread_cascades_and_no_orphans (run emptyStore wOps) "gone" wOps).1
      ⟨1, "T1", "user", "hi", 1⟩ (by decide),
   (deleteThread_cascades_and_no_orphans (run emptyStore wOps) "gone" wOps).2
      ⟨1, "T1", "user", "hi", 1⟩ (by decide)⟩

/-- C3: appendMessage fails exactly when the thread id references no existing
thread — the active foreign-key constraint rejects the insert (the code's
realisation of `NotFound`: this error occurs if and only if the referenced
thread is absent) — and the failed call leaves the store unchanged, so no
message row is persisted anywhere. -/
theorem appendMessage_missing_thread (s : Store) (tIns tUpd : Nat)
    (t role content : String) :
    (appendMessage s tIns tUpd t role content = .error .foreignKeyViolation
        ↔ threadExists s t = false) ∧
    (threadExists s t = false →
        applyOp s (.append tIns tUpd t role content) = s) := by
  refine ⟨⟨?_, ?_⟩, ?_⟩
  · intro h
    by_cases hex : threadExists s t = true
    · rw [appendMessage_ok hex] at h
      cases h
    · simpa using hex
  · intro h
    simp [appendMessage, h]
  · intro h
    simp [applyOp, appendMessage, h, Except.toOption]

/-- C3 witness: appending to the absent thread `T` of the empty store fails
with the foreign-key violation and persists nothing. -/
theorem appendMessage_missing_thread_witness :
    appendMessage emptyStore 0 0 "T" "user" "x" = .error .foreignKeyViolation ∧
    applyOp emptyStore (.append 0 0 "T" "user" "x") = emptyStore :=
  ⟨(appendMessage_missing_thread emptyStore 0 0 "T" "user" "x").1.mpr (by decide),
   (appendMessage_missing_thread emptyStore 0 0 "T" "user" "x").2 (by decide)⟩

/-- C6: the conversation assembler applied to prior history `[m1, ..., mn]`
and new user message `m` yields exactly the (role, content) sequence of
`[m1, ..., mn, m]`: oldest first, ending with the new message, no element
reordered or dropped, each carrying its original role and content.  (The
spread `[...messages, userMessage]` in the source builds a fresh array, so the
input history is not mutated; the embedding is a pure function of it.) -/
theorem assembleContents_exact (history : List UiMessage) (m : UiMessage) :
    assembleContents history m
      = history.map (fun x => ⟨x.role, [⟨x.content⟩]⟩) ++ [⟨m.role, [⟨m.content⟩]⟩] ∧
    (assembleContents history m).map GeminiContent.role
      = (history ++ [m]).map UiMessage.role ∧
    (assembleContents history m).map (fun x => x.parts.map GeminiPart.text)
      = (history ++ [m]).map (fun x => [x.content]) ∧
    (assembleContents history m).length = history.length + 1 := by
  refine ⟨by simp [assembleContents], ?_, ?_, by simp [assembleContents]⟩
  · simp [assembleContents]
  · simp [assembleContents]

/-- C10: deleting an id for which no thread exists leaves the entire
reachable store unchanged (the `DELETE` matches no thread row, and by
referential integrity no message row either; the handler reports
`{ success: true }` regardless), and deleteThread is idempotent. -/
theorem deleteThread_missing_noop_idempotent (ops : List Op) (id : String) :
    (threadExists (run emptyStore ops) id = false →
        deleteThread (run emptyStore ops) id = run emptyStore ops) ∧
    deleteThread (deleteThread (run emptyStore ops) id) id
      = deleteThread (run emptyStore ops) id := by
  constructor
  · intro h
    have hno := noOrphans_run ops noOrphans_empty
    have hthr : (run emptyStore ops).threads.filter (fun t => !(t.id == id))
        = (run emptyStore ops).threads := by
      rw [List.filter_eq_self]
      intro t ht
      simp only [Bool.not_eq_true', beq_eq_false_iff_ne, ne_eq]
      intro heq
      have := threadExists_iff.2 ⟨t, ht, heq⟩
      rw [h] at this
      cases this
    have hmsg : (run emptyStore ops).messages.filter (fun m => !(m.thread_id == id))
        = (run emptyStore ops).messages := by
      rw [List.filter_eq_self]
      intro m hm
      simp only [Bool.not_eq_true', beq_eq_false_iff_ne, ne_eq]
      intro heq
      have := hno m hm
      rw [heq, h] at this
      cases this
    simp only [deleteThread]
    rw [hthr, hmsg]
  · simp [deleteThread, List.filter_filter]

/-- C10 witness: on the concrete trace, deleting the absent id `none` is an
exact no-op and deleting `T1` twice equals deleting it once. -/
theorem deleteThread_missing_noop_idempotent_witness :
    deleteThread (run emptyStore wOps) "none" = run emptyStore wOps ∧
    deleteThread (deleteThread (run emptyStore wOps) "T1") "T1"
      = deleteThread (run emptyStore wOps) "T1" :=
  ⟨(deleteThread_missing_noop_idempotent wOps "none").1 (by decide),
   (deleteThread_missing_noop_idempotent wOps "T1").2⟩

/-- C7 counterexample: the PATCH handler validates nothing.  On the store
containing thread `t1`, renaming with the title `""` — empty (and empty after
trimming) — does not fail with `InvalidArgument`: the update succeeds and
stores the empty title; and renaming the absent id `missing` does not fail
with `NotFound`: it is a silently successful no-op. -/
theorem renameThread_cex :
    ("" : String).isEmpty = true ∧
    (renameThread (run emptyStore [.create 0 "t1" "A"]) "t1" "").threads
      = [⟨"t1", "", 0, 0⟩] ∧
    renameThread (run emptyStore [.create 0 "t1" "A"]) "missing" "x"
      = run emptyStore [.create 0 "t1" "A"] := by
  refine ⟨rfl, by decide, by decide⟩

/-- C7 amended: renameThread never fails — any title (including one empty
after trimming) is stored verbatim on the matching thread, an absent id makes
the update a successful no-op, and applying the same rename twice leaves the
store exactly as applying it once. -/
theorem renameThread_total_idempotent (s : Store) (id title : String) :
    renameThread (renameThread s id title) id title = renameThread s id title ∧
    (threadExists s id = false → renameThread s id title = s) := by
  constructor
  · have hg : ∀ t : ThreadRow,
        (if ((if t.id == id then { t with title := title } else t) : ThreadRow).id == id
          then { (if t.id == id then { t with title := title } else t) with title := title }
          else (if t.id == id then { t with title := title } else t))
        = (if t.id == id then { t with title := title } else t) := by
      intro t
      by_cases h : (t.id == id) = true <;> simp [h]
    simp only [renameThread, List.map_map]
    congr 1
    exact List.map_congr_left fun a _ => hg a
  · intro h
    have h2 : ∀ t ∈ s.threads, t.id ≠ id := by
      intro t ht heq
      have := threadExists_iff.2 ⟨t, ht, heq⟩
      rw [h] at this
      cases this
    have hmap : s.threads.map
        (fun t => if t.id == id then { t with title := title } else t) = s.threads := by
      refine map_noop fun t ht => ?_
      have hbeq : (t.id == id) = false := beq_eq_false_iff_ne.2 (h2 t ht)
      simp [hbeq]
    simp only [renameThread, hmap]

/-- C7 witness: the amended claim at concrete inputs — idempotent rename of
`T1` and exact no-op rename of the absent `zz`. -/
theorem renameThread_total_idempotent_witness :
    renameThread (renameThread (run emptyStore wOps) "T1" "B") "T1" "B"
      = renameThread (run emptyStore wOps) "T1" "B" ∧
    renameThread (run emptyStore wOps) "zz" "B" = run emptyStore wOps :=
  ⟨(renameThread_total_idempotent (run emptyStore wOps) "T1" "B").1,
   (renameThread_total_idempotent (run emptyStore wOps) "zz" "B").2 (by decide)⟩

/-- C8 counterexample: the store applies no validation to `role`.  Appending
with role `"system"` — which is neither `"user"` nor `"model"` — is not
rejected with `InvalidArgument`: the insert succeeds and the row is persisted
with that role verbatim. -/
theorem appendMessage_role_unchecked_cex :
    (("system" : String) ≠ "user" ∧ ("system" : String) ≠ "model") ∧
    appendMessage (run emptyStore [.create 0 "t1" "A"]) 1 1 "t1" "system" "hey"
      = .ok ⟨[⟨"t1", "A", 0, 1⟩], [⟨1, "t1", "system", "hey", 1⟩], 2⟩ := by
  refine ⟨⟨by decide, by decide⟩, by rfl⟩

/-- C8 amended: `role` is an unconstrained TEXT column inserted unvalidated
by the POST handler: appendMessage on an existing thread accepts every role
string and persists the row verbatim (the closed `"user" | "model"` tag
exists only as a TypeScript type in the client code). -/
theorem appendMessage_any_role (s : Store) (tIns tUpd : Nat)
    (t role content : String) (hex : threadExists s t = true) :
    ∃ s2, appendMessage s tIns tUpd t role content = .ok s2 ∧
      s2.messages = s.messages ++ [⟨s.nextId, t, role, content, tIns⟩] :=
  ⟨_, appendMessage_ok hex tIns tUpd role content, rfl⟩

/-- C8 witness: the amended claim at a concrete input — the role
`"assistant"` is accepted and stored. -/
theorem appendMessage_any_role_witness :
    ∃ s2, appendMessage (run emptyStore wOps) 5 5 "T1" "assistant" "z" = .ok s2 ∧
      s2.messages = (run emptyStore wOps).messages
        ++ [⟨(run emptyStore wOps).nextId, "T1", "assistant", "z", 5⟩] :=
  appendMessage_any_role (run emptyStore wOps) 5 5 "T1" "assistant" "z" (by decide)

/-- C9 counterexample: after the scenario that creates thread `T3` with five
messages and then deletes it, no thread `T3` exists, yet listMessages on `T3`
does not fail with `NotFound`: the route performs no existence check and
responds successfully with the empty list, indistinguishable from an existing
thread with no messages. -/
theorem listMessages_no_notfound_cex :
    threadExists (run emptyStore cexOps9) "T3" = false ∧
    listMessages (run emptyStore cexOps9) "T3" = [] := by
  refine ⟨by decide, by decide⟩

/-- C9 amended: listMessages never fails.  It returns the empty sequence for
an existing thread with no messages, for a thread id absent from a reachable
store, and for any deleted thread id — absence and emptiness are not
distinguished by the route. -/
theorem listMessages_total_empty (ops : List Op) (t : String) :
    (threadExists (run emptyStore ops) t = true →
      (∀ m ∈ (run emptyStore ops).messages, m.thread_id ≠ t) →
      listMessages (run emptyStore ops) t = []) ∧
    (threadExists (run emptyStore ops) t = false →
        listMessages (run emptyStore ops) t = []) ∧
    listMessages (deleteThread (run emptyStore ops) t) t = [] := by
  refine ⟨?_, ?_, ?_⟩
  · intro _hex hno
    have hfil : (run emptyStore ops).messages.filter (fun m => m.thread_id == t)
        = [] := by
      rw [List.filter_eq_nil_iff]
      intro m hm hbeq
      rw [beq_iff_eq] at hbeq
      exact absurd hbeq (hno m hm)
    simp [listMessages, hfil, sortByCreated]
  · intro h
    have hno := noOrphans_run ops noOrphans_empty
    have hfil : (run emptyStore ops).messages.filter (fun m => m.thread_id == t)
        = [] := by
      rw [List.filter_eq_nil_iff]
      intro m hm hbeq
      rw [beq_iff_eq] at hbeq
      have := hno m hm
      rw [hbeq, h] at this
      cases this
    simp [listMessages, hfil, sortByCreated]
  · have hfil : ((run emptyStore ops).messages.filter
        (fun m => !(m.thread_id == t))).filter (fun m => m.thread_id == t) = [] := by
      rw [List.filter_eq_nil_iff]
      intro m hm hbeq
      have := (List.mem_filter.1 hm).2
      rw [hbeq] at this
      cases this
    simp [listMessages, deleteThread, hfil, sortByCreated]

/-- C9 witness: the amended claim at concrete inputs — the empty result for
the existing thread `E` that has no messages, for the absent id `none`, and
for the deleted thread `T1`. -/
theorem listMessages_total_empty_witness :
    listMessages (run emptyStore [Op.create 0 "E" "empty"]) "E" = [] ∧
    listMessages (run emptyStore wOps) "none" = [] ∧
    listMessages (deleteThread (run emptyStore wOps) "T1") "T1" = [] :=
  ⟨(listMessages_total_empty [Op.create 0 "E" "empty"] "E").1 (by decide) (by decide),
   (listMessages_total_empty wOps "none").2.1 (by decide),
   (listMessages_total_empty wOps "T1").2.2⟩

/-- C2: when the thread exists and the model call throws after the user
message was persisted, the turn leaves the store holding exactly the previous
messages plus the single new user-role row — no new model row; the synthetic
`errorReply` string appears in the client state only (any stored model-role
row with that content predates the turn); and a subsequent send on the thread
is unaffected: the thread still exists and the next append succeeds. -/
theorem failed_turn_keeps_user_message (s : Store) (ui : List UiMessage)
    (chatId input : String) (t1 t2 t3 t4 : Nat)
    (hex : threadExists s chatId = true) :
    (handleSendMessage s ui chatId input t1 t2 t3 t4 .failure).1.messages
        = s.messages ++ [⟨s.nextId, chatId, "user", input, t1⟩] ∧
    (∀ m ∈ (handleSendMessage s ui chatId input t1 t2 t3 t4 .failure).1.messages,
        m.role = "model" → m.content = errorReply → m ∈ s.messages) ∧
    (handleSendMessage s ui chatId input t1 t2 t3 t4 .failure).2
        = ui ++ [⟨"user", input⟩, ⟨"model", errorReply⟩] ∧
    (∀ t5 t6 role content, ∃ s2,
        appendMessage (handleSendMessage s ui chatId input t1 t2 t3 t4 .failure).1
          t5 t6 chatId role content = .ok s2) := by
  have hmain : (handleSendMessage s ui chatId input t1 t2 t3 t4 .failure).1
      = ⟨s.threads.map (fun t => if t.id == chatId then { t with updated_at := t2 } else t),
         s.messages ++ [⟨s.nextId, chatId, "user", input, t1⟩], s.nextId + 1⟩ := by
    simp [handleSendMessage, appendMessage_ok hex, Except.toOption]
  refine ⟨by rw [hmain], ?_, by simp [handleSendMessage, List.append_assoc], ?_⟩
  · intro m hm hrole hcontent
    rw [hmain] at hm
    rcases List.mem_append.1 hm with hold | hnew
    · exact hold
    · simp only [List.mem_singleton] at hnew
      subst hnew
      have hne : ("user" : String) ≠ "model" := by decide
      exact absurd hrole hne
  · intro t5 t6 role content
    have hfid : ∀ t : ThreadRow,
        (if t.id == chatId then { t with updated_at := t2 } else t).id = t.id := by
      intro t; split <;> rfl
    have hex2 : threadExists
        (handleSendMessage s ui chatId input t1 t2 t3 t4 .failure).1 chatId = true := by
      rw [hmain]
      rw [threadExists_map hfid]
      exact hex
    exact ⟨_, appendMessage_ok hex2 t5 t6 role content⟩

/-- C2 witness: a concrete failed turn on thread `T1` — the store gains
exactly the user message and the client state ends with the synthetic error
reply. -/
theorem failed_turn_keeps_user_message_witness :
    (handleSendMessage (run emptyStore wOps) [] "T1" "again" 2 2 3 3 .failure).1.messages
      = (run emptyStore wOps).messages
        ++ [⟨(run emptyStore wOps).nextId, "T1", "user", "again", 2⟩] ∧
    (handleSendMessage (run emptyStore wOps) [] "T1" "again" 2 2 3 3 .failure).2
      = [] ++ [⟨"user", "again"⟩, ⟨"model", errorReply⟩] :=
  ⟨(failed_turn_keeps_user_message (run emptyStore wOps) [] "T1" "again" 2 2 3 3
      (by decide)).1,
   (failed_turn_keeps_user_message (run emptyStore wOps) [] "T1" "again" 2 2 3 3
      (by decide)).2.2.1⟩

/-- C4 counterexample: `ORDER BY created_at ASC` does not break ties, and the
schema's second-resolution `DATETIME` makes equal `created_at` values
routine.  On the concrete trace whose two appends land in the same second,
the REVERSED listing is an admissible query result (a `created_at`-sorted
permutation of the thread's rows): it differs from call order and its `id`
fields are not strictly increasing, so the claimed ordering guarantee does
not hold of the program. -/
theorem listMessages_tie_order_cex :
    IsListMessagesResult (run emptyStore cexOps4) "T"
      [⟨2, "T", "model", "b", 1⟩, ⟨1, "T", "user", "a", 1⟩] ∧
    [(⟨2, "T", "model", "b", 1⟩ : MessageRow), ⟨1, "T", "user", "a", 1⟩]
      ≠ (run emptyStore cexOps4).messages.filter (fun m => m.thread_id == "T") ∧
    ¬ ([(⟨2, "T", "model", "b", 1⟩ : MessageRow), ⟨1, "T", "user", "a", 1⟩].Pairwise
        (fun a b => a.id < b.id)) := by
  refine ⟨⟨?_, ?_⟩, ?_, ?_⟩
  · have hf : (run emptyStore cexOps4).messages.filter (fun m => m.thread_id == "T")
        = [⟨1, "T", "user", "a", 1⟩, ⟨2, "T", "model", "b", 1⟩] := by decide
    rw [hf]
    exact List.Perm.swap _ _ _
  · decide
  · decide
  · decide

/-- C4 amended: every admissible result of listMessages is a permutation of
the thread's rows sorted by `created_at` non-decreasing (the deterministic
`listMessages` embedding is one such result), and whenever the thread's
stored `created_at` values are strictly increasing — i.e. no two of its rows
share a timestamp — every admissible result is exactly the rows in insertion
(call) order with strictly increasing `id` fields. -/
theorem listMessages_sorted_permutation (c : Nat) (ops : List Op) (t : String)
    (h : TimeOrdered c ops) :
    IsListMessagesResult (run emptyStore ops) t (listMessages (run emptyStore ops) t) ∧
    (∀ l, IsListMessagesResult (run emptyStore ops) t l →
      ((run emptyStore ops).messages.filter (fun m => m.thread_id == t)).Pairwise
          (fun a b => a.created_at < b.created_at) →
      l = (run emptyStore ops).messages.filter (fun m => m.thread_id == t) ∧
      l.Pairwise (fun a b => a.id < b.id)) := by
  have hinv := inv_run ops (inv_empty c) h
  constructor
  · rw [listMessages_eq_filter hinv t]
    exact ⟨List.Perm.refl _, hinv.created_sorted.filter _⟩
  · intro l hl hstrict
    have heq : l = (run emptyStore ops).messages.filter (fun m => m.thread_id == t) :=
      eq_of_perm_of_sorted_strict hl.1 hl.2 hstrict
    refine ⟨heq, ?_⟩
    rw [heq]
    exact hinv.ids_sorted.filter _

/-- C4 witness: on the concrete trace with strictly increasing timestamps,
the admissible result produced by the embedding equals the rowid-ordered
filter (call order) and its ids are strictly increasing. -/
theorem listMessages_sorted_permutation_witness :
    listMessages (run emptyStore w4Ops) "T1"
      = (run emptyStore w4Ops).messages.filter (fun m => m.thread_id == "T1") ∧
    (listMessages (run emptyStore w4Ops) "T1").Pairwise (fun a b => a.id < b.id) :=
  (listMessages_sorted_permutation 0 w4Ops "T1" (by decide)).2
    (listMessages (run emptyStore w4Ops) "T1")
    (listMessages_sorted_permutation 0 w4Ops "T1" (by decide)).1
    (by decide)

theorem updatedAt_mono_applyOp {s : Store} {c : Nat} (hinv : Inv s c) (op : Op)
    (hop : timesOk c (opTimes op) = true) :
    ∀ u ∈ (applyOp s op).threads, ∀ t ∈ s.threads, t.id = u.id →
      t.updated_at ≤ u.updated_at := by
  intro u hu t ht hid
  cases op with
  | create now id title =>
    by_cases hex : threadExists s id = true
    · simp only [applyOp, createThread, hex, if_true, Except.toOption, Option.getD] at hu
      rw [eq_of_mem_pairwise_ne hinv.ids_nodup ht hu hid]
    · simp only [applyOp, createThread, hex, Bool.false_eq_true, not_false_eq_true,
        ite_false, Except.toOption, Option.getD] at hu
      rcases List.mem_append.1 hu with hold | hnew
      · rw [eq_of_mem_pairwise_ne hinv.ids_nodup ht hold hid]
      · simp only [List.mem_singleton] at hnew
        subst hnew
        have : threadExists s id = true := threadExists_iff.2 ⟨t, ht, hid⟩
        rw [this] at hex
        exact absurd rfl hex
  | append tIns tUpd th r co =>
    simp only [opTimes, timesOk, Bool.and_eq_true, decide_eq_true_eq, and_true] at hop
    by_cases hex : threadExists s th = true
    · simp only [applyOp, appendMessage, hex, if_true, Except.toOption, Option.getD] at hu
      rcases List.mem_map.1 hu with ⟨t0, ht0, rfl⟩
      by_cases hth : (t0.id == th) = true
      · simp only [hth, if_true]
        exact (hinv.thr_le t ht).trans (hop.1.trans hop.2)
      · simp only [hth, Bool.false_eq_true, not_false_eq_true, ite_false] at hid ⊢
        rw [eq_of_mem_pairwise_ne hinv.ids_nodup ht ht0 hid]
    · simp only [applyOp, appendMessage, hex, Bool.false_eq_true, not_false_eq_true,
        ite_false, Except.toOption, Option.getD] at hu
      rw [eq_of_mem_pairwise_ne hinv.ids_nodup ht hu hid]
  | delete id =>
    have hu2 : u ∈ s.threads :=
      List.mem_of_mem_filter (show u ∈ s.threads.filter _ from hu)
    rw [eq_of_mem_pairwise_ne hinv.ids_nodup ht hu2 hid]
  | rename id title =>
    rcases List.mem_map.1 (show u ∈ s.threads.map _ from hu) with ⟨t0, ht0, rfl⟩
    by_cases hth : (t0.id == id) = true
    · simp only [hth, if_true] at hid ⊢
      rw [eq_of_mem_pairwise_ne hinv.ids_nodup ht ht0 hid]
    · simp only [hth, Bool.false_eq_true, not_false_eq_true, ite_false] at hid ⊢
      rw [eq_of_mem_pairwise_ne hinv.ids_nodup ht ht0 hid]

/-- C5: over any time-ordered trace from the empty database, every thread's
`updated_at` is at least the `created_at` of each of its messages (in
particular of its most recent one); and `updated_at` is monotonically
non-decreasing over a thread's lifetime: any further API call whose
statements run no earlier than the end of the trace maps each surviving
thread row to one with an `updated_at` at least as large. -/
theorem updatedAt_dominates_and_monotone (c : Nat) (ops : List Op)
    (h : TimeOrdered c ops) :
    (∀ t ∈ (run emptyStore ops).threads, ∀ m ∈ (run emptyStore ops).messages,
        m.thread_id = t.id → m.created_at ≤ t.updated_at) ∧
    (∀ op, timesOk (endTime c ops) (opTimes op) = true →
      ∀ u ∈ (applyOp (run emptyStore ops) op).threads,
      ∀ t ∈ (run emptyStore ops).threads, t.id = u.id →
        t.updated_at ≤ u.updated_at) := by
  have hinv := inv_run ops (inv_empty c) h
  exact ⟨hinv.upd_ge, fun op hop => updatedAt_mono_applyOp hinv op hop⟩

/-- C5 witness: on the concrete trace, the thread's `updated_at` dominates
its message's `created_at`, and a subsequent rename leaves `updated_at`
non-decreasing. -/
theorem updatedAt_dominates_and_monotone_witness :
    ((⟨1, "T1", "user", "hi", 1⟩ : MessageRow).created_at
        ≤ (⟨"T1", "A", 0, 1⟩ : ThreadRow).updated_at) ∧
    ((⟨"T1", "A", 0, 1⟩ : ThreadRow).updated_at
        ≤ (⟨"T1", "B", 0, 1⟩ : ThreadRow).updated_at) :=
  ⟨(updatedAt_dominates_and_monotone 0 wOps (by decide)).1 ⟨"T1", "A", 0, 1⟩
      (by decide) ⟨1, "T1", "user", "hi", 1⟩ (by decide) (by decide),
   (updatedAt_dominates_and_monotone 0 wOps (by decide)).2 (.rename "T1" "B")
      (by decide) ⟨"T1", "B", 0, 1⟩ (by decide) ⟨"T1", "A", 0, 1⟩ (by decide)
      (by decide)⟩

end NTAI
